import Mathlib

/-!
Verification development for the CoMoTo training/evaluation engine
(`multimodal_breast_analysis/engine/engine.py`).

Each definition is a shallow embedding of a piece of the Python source;
doc comments cite the embedded lines.  Real-valued tensor arithmetic is
modelled over `ℚ` where the source only adds and divides, and over `ℝ`
where it exponentiates (softmax / KL divergence).
-/

namespace CoMoTo

/-! ### DataStreamCycler (`Engine.train`, lines 367 and 384-389)

The teacher iterator is a plain Python iterator over a loader of length `M`.
Its state is the number of batches already consumed (`pos`, with
`0 ≤ pos ≤ M`).  `next(teacher_iter)` yields batch `pos` and advances, or
raises `StopIteration` when exhausted; the `except` branch re-creates the
iterator and calls `next` again, which itself raises iff `M = 0`. -/

/-- One execution of the `try: next(teacher_iter) / except StopIteration:
reinit; next(teacher_iter)` block: returns the yielded batch index and the
new iterator position, or `none` when even the fresh iterator is empty
(`M = 0`, the uncaught second `StopIteration`). -/
def cyclerNext (M pos : ℕ) : Option (ℕ × ℕ) :=
  if pos < M then some (pos, pos + 1)
  else if 0 < M then some (0, 1)
  else none

/-- The pairing loop of one distilling epoch: the student loader drives `L`
iterations, each pulling one teacher batch through `cyclerNext`.  Returns
the list of teacher batch indices paired with student batches
`0, …, L-1`, together with the final iterator position. -/
def epochPairs (M : ℕ) : ℕ → ℕ → Option (List ℕ × ℕ)
  | 0, pos => some ([], pos)
  | L + 1, pos =>
    match cyclerNext M pos with
    | none => none
    | some (b, pos') =>
      match epochPairs M L pos' with
      | none => none
      | some (l, p) => some (b :: l, p)

/-! ### CheckpointManager (`Engine.train`, lines 634-641; `Engine.warmup`,
lines 311-318)

Per epoch the source saves a "last" checkpoint unconditionally and then
saves a "best" checkpoint iff `current_metric >= best_metric`, updating
`best_metric` on save; `best_metric` is initialised to `0`. -/

/-- Per-epoch checkpoint decisions given a starting running best: for each
selection-metric value, the pair (last written, best written).  "last" is
always written; "best" is written iff the metric is `≥` the running best,
which is then updated to the metric. -/
def checkpointRun : List ℚ → ℚ → List (Bool × Bool)
  | [], _ => []
  | m :: ms, best =>
    (true, decide (best ≤ m)) :: checkpointRun ms (if best ≤ m then m else best)

/-- Checkpoint decisions of a full run: the source initialises
`best_metric = 0`. -/
def checkpointWrites (ms : List ℚ) : List (Bool × Bool) :=
  checkpointRun ms 0

/-! ### Box rescaling in `Engine.predict` (lines 789-797) and
`Engine.predict_2dto3d` (lines 860-866)

Both functions multiply box columns 0 and 2 by a "width" factor and
columns 1 and 3 by a "height" factor, but they read the factors from
transposed positions of the original slice shape:
`predict` uses `slice_shape[0] / size[0]` for columns 0,2 and
`slice_shape[1] / size[1]` for columns 1,3, while `predict_2dto3d` uses
`slice_shape[1] / size[0]` and `slice_shape[0] / size[1]`. -/

/-- A predicted box: columns 0..3 = (xmin, ymin, xmax, ymax). -/
structure Box4 where
  c0 : ℚ
  c1 : ℚ
  c2 : ℚ
  c3 : ℚ
deriving DecidableEq

/-- Rescaling in `Engine.predict` (lines 791-796): width factor
`slice_shape[0] / size[0]` on columns 0,2; height factor
`slice_shape[1] / size[1]` on columns 1,3. -/
def predictRescale (shape0 shape1 size0 size1 : ℚ) (b : Box4) : Box4 :=
  ⟨b.c0 * (shape0 / size0), b.c1 * (shape1 / size1),
   b.c2 * (shape0 / size0), b.c3 * (shape1 / size1)⟩

/-- Rescaling in `Engine.predict_2dto3d` (lines 860-866): width factor
`slice_shape[1] / size[0]` on columns 0,2; height factor
`slice_shape[0] / size[1]` on columns 1,3. -/
def predict2dto3dRescale (shape0 shape1 size0 size1 : ℚ) (b : Box4) : Box4 :=
  ⟨b.c0 * (shape1 / size0), b.c1 * (shape0 / size1),
   b.c2 * (shape1 / size0), b.c3 * (shape0 / size1)⟩

/-! ### ObjectLevelAligner (`Engine.train`, lines 472-574)

A captured feature map is indexed `features[sample, channel, y, x]`; we
model one sample's map as a function `ℕ → ℤ → ℤ → ℚ` (channel, y, x).
Boxes arrive as integer tensors `(boxes * ratio).round().int()` with
columns `(xmin, ymin, xmax, ymax)`. -/

/-- The 9 anchor tags of one box, named as the source's
`*_botleft, *_botright, *_topleft, *_topright, *_center, *_left,
*_right, *_top, *_bot` lists. -/
inductive Tag
  | botleft | botright | topleft | topright | center | left | right | top | bot
deriving DecidableEq

/-- A box in feature-map coordinates after `(boxes * ratio).round().int()`:
integer columns `(xmin, ymin, xmax, ymax)`. -/
structure FBox where
  xmin : ℤ
  ymin : ℤ
  xmax : ℤ
  ymax : ℤ
deriving DecidableEq

/-- Row (`y`) index sampled for each tag (lines 496-521: `boxes[...][1]`
for ymin, `boxes[...][3]` for ymax, `int((boxes[...][1]+boxes[...][3])/2)`
for the vertical midpoint — Python's `int()` truncates toward zero, which
is `Int.tdiv`). -/
def anchorY : Tag → FBox → ℤ
  | .botleft, b => b.ymin
  | .botright, b => b.ymin
  | .topleft, b => b.ymax
  | .topright, b => b.ymax
  | .center, b => Int.tdiv (b.ymin + b.ymax) 2
  | .left, b => Int.tdiv (b.ymin + b.ymax) 2
  | .right, b => Int.tdiv (b.ymin + b.ymax) 2
  | .top, b => b.ymin
  | .bot, b => b.ymax

/-- Column (`x`) index sampled for each tag (lines 496-521: `boxes[...][0]`
for xmin, `boxes[...][2]` for xmax,
`int((boxes[...][0]+boxes[...][2])/2)` for the horizontal midpoint). -/
def anchorX : Tag → FBox → ℤ
  | .botleft, b => b.xmin
  | .botright, b => b.xmax
  | .topleft, b => b.xmin
  | .topright, b => b.xmax
  | .center, b => Int.tdiv (b.xmin + b.xmax) 2
  | .left, b => b.xmin
  | .right, b => b.xmax
  | .top, b => Int.tdiv (b.xmin + b.xmax) 2
  | .bot, b => Int.tdiv (b.xmin + b.xmax) 2

/-- The feature vector entry `features[sample, c, y, x]` sampled for one
box at one anchor tag. -/
def anchorValue (F : ℕ → ℤ → ℤ → ℚ) (t : Tag) (b : FBox) (c : ℕ) : ℚ :=
  F c (anchorY t b) (anchorX t b)

/-- One sample of a batch: its captured feature map and its scaled integer
boxes. -/
structure Sample where
  F : ℕ → ℤ → ℤ → ℚ
  boxes : List FBox

/-- Per-sample per-tag aggregation (computed only under the
`if num_boxes > 0` guard, lines 494-521):
`sum([features[sample, :, y, x] for box in boxes]) / num_boxes`,
per channel `c`. -/
def sampleTagMean (s : Sample) (t : Tag) (c : ℕ) : ℚ :=
  (s.boxes.map fun b => anchorValue s.F t b c).sum / (s.boxes.length : ℚ)

/-- Per-tag batch aggregation (lines 492-530, and identically for the
teacher in lines 534-572): samples with `num_boxes > 0` append their
per-sample mean; the final `sum(lst) / len(lst)` raises
`ZeroDivisionError` when no sample had boxes (`len(lst) = 0`), modelled
as `none`. -/
def batchTagMean (batch : List Sample) (t : Tag) (c : ℕ) : Option ℚ :=
  let l := (batch.filter fun s => decide (0 < s.boxes.length)).map
    fun s => sampleTagMean s t c
  if l.length = 0 then none else some (l.sum / (l.length : ℚ))

/-- The spec's per-sample aggregate (§4.3 step 3): `none` for a sample
with zero boxes (excluded, not zero-filled), otherwise the arithmetic
mean over the sample's boxes. -/
def perSampleAgg (s : Sample) (t : Tag) (c : ℕ) : Option ℚ :=
  if s.boxes.isEmpty then none
  else some ((s.boxes.map fun b => anchorValue s.F t b c).sum / (s.boxes.length : ℚ))

/-- The spec's two-stage mean (§4.3 steps 3-4): mean over the samples
whose per-sample aggregate is non-empty. -/
def twoStageMean (batch : List Sample) (t : Tag) (c : ℕ) : ℚ :=
  let l := batch.filterMap fun s => perSampleAgg s t c
  l.sum / (l.length : ℚ)

/-- A single flattened mean over all boxes of all samples of the batch,
for comparison with the two-stage order. -/
def flattenedMean (batch : List Sample) (t : Tag) (c : ℕ) : ℚ :=
  let vals := (batch.map fun s => s.boxes.map fun b => anchorValue s.F t b c).flatten
  vals.sum / (vals.length : ℚ)

/-- torch's `Tensor.round`: round to nearest, ties to even. -/
def roundHalfEven (q : ℚ) : ℤ :=
  if q - ⌊q⌋ < 1 / 2 then ⌊q⌋
  else if 1 / 2 < q - ⌊q⌋ then ⌊q⌋ + 1
  else if 2 ∣ ⌊q⌋ then ⌊q⌋ else ⌊q⌋ + 1

/-- A box in the network's input-image coordinate space (real-valued
columns `(xmin, ymin, xmax, ymax)`), as stored in `target[i]['boxes']`. -/
structure QBox where
  xmin : ℚ
  ymin : ℚ
  xmax : ℚ
  ymax : ℚ

/-- The scaling ratio of lines 473-474:
`(features.shape[-1] - 1) / (image.shape[-1] - 1)`. -/
def featureRatio (fW imgW : ℕ) : ℚ := ((fW : ℚ) - 1) / ((imgW : ℚ) - 1)

/-- Box scaling `(target[i]['boxes'] * ratio).round().int()` (lines 475-476): every
coordinate is multiplied by the (width-derived) ratio and rounded
half-to-even. -/
def scaleBox (r : ℚ) (b : QBox) : FBox :=
  ⟨roundHalfEven (b.xmin * r), roundHalfEven (b.ymin * r),
   roundHalfEven (b.xmax * r), roundHalfEven (b.ymax * r)⟩

/-- A concrete 2×2 feature map distinguishing all four positions:
`F c y x = 2y + x`. -/
def cexMap : ℕ → ℤ → ℤ → ℚ := fun _ y x => ((2 * y + x : ℤ) : ℚ)

/-! ### Best-metric selection (`Engine.train`, lines 635-637;
`Engine.warmup`, lines 312-314)

The epoch's `current_metrics` is a string-keyed mapping iterated in
insertion order; the selection scalar is assigned from every key
containing a hardcoded substring, so the last matching key wins and the
previous value is kept when no key matches. -/

/-- Containment of `pat` as a contiguous substring (Python's `pat in s`
for strings). -/
def charsContain (pat : List Char) : List Char → Bool
  | [] => pat.isEmpty
  | c :: rest => pat.isPrefixOf (c :: rest) || charsContain pat rest

/-- String-level wrapper of `charsContain`. -/
def strContains (pat s : String) : Bool := charsContain pat.toList s.toList

/-- Lines 635-637: `for k in current_metrics: if "mAP" in k:
current_metric = current_metrics[k]`, starting from the incoming
`current_metric` (the previous epoch's value, initially `0`). -/
def selectStudentMetric (metrics : List (String × ℚ)) (current : ℚ) : ℚ :=
  metrics.foldl (fun cur kv => if strContains "mAP" kv.1 then kv.2 else cur) current

/-- Lines 312-314 (warmup): the same pattern with the hardcoded substring
`"mean_sensitivity"`. -/
def selectTeacherMetric (metrics : List (String × ℚ)) (current : ℚ) : ℚ :=
  metrics.foldl
    (fun cur kv => if strContains "mean_sensitivity" kv.1 then kv.2 else cur) current

/-- Modelled from the spec: selection of the best-checkpoint scalar "by a
configured metric name" (§4.6) — an exact-key lookup.  Missing from src/:
the repository's configuration has no selection-metric name field and the
source performs no exact-name lookup; this definition exists only to
compare the spec's prescription with the source's substring matching. -/
def selectByConfiguredName (name : String) (metrics : List (String × ℚ))
    (current : ℚ) : ℚ :=
  metrics.foldl (fun cur kv => if kv.1 = name then kv.2 else cur) current

/-! ### TrainingOrchestrator state machine (`Engine.train`, lines 360-641)

The loop's effects on the two networks are modelled by explicit state
passing: parameters (abstracted to one `ℤ` cell per optimizer group),
train/eval mode flags, the teacher iterator position, and a log of
forward calls recording whether gradients were enabled, which mode the
module was in, and whether the call belonged to a distillation step. -/

/-- The `distill_mode` configuration value (`object_level`, `image_level`
or `pretraining`). -/
inductive DMode
  | objectLevel | imageLevel | pretraining
deriving DecidableEq

/-- One forward call through a network, as recorded by the model. -/
structure ForwardEvent where
  teacherSide : Bool
  gradEnabled : Bool
  evalMode : Bool
  inDistill : Bool
deriving DecidableEq

/-- The mutable engine state threaded through `train()`. `studentParams`,
`teacherParams` and `projectParams` stand for the three parameter
groups; only `student_optimizer.step()` is ever called in `train`, and
its groups are the student's parameters plus (once `_instantiate_kd`
ran, for a non-`pretraining` mode) the projection layer's. -/
structure NetState where
  studentParams : ℤ
  teacherParams : ℤ
  projectParams : ℤ
  studentTraining : Bool
  teacherTraining : Bool
  teacherPos : ℕ
  log : List ForwardEvent

/-- Static configuration of one `train()` call, with the optimizer's
parameter updates abstracted as arbitrary per-step functions. -/
structure TrainCfg where
  epochs : ℕ
  distillEpoch : ℕ
  mode : DMode
  studentLen : ℕ
  teacherLen : ℕ
  stepStudent : ℕ → ℤ → ℤ
  stepProject : ℕ → ℤ → ℤ

/-- Record a forward call in the log. -/
def logF (st : NetState) (e : ForwardEvent) : NetState :=
  { st with log := st.log ++ [e] }

/-- One iteration of the inner batch loop (lines 375-612): the student
forward (train mode, gradients enabled) computes the base loss; when
`epoch >= distill_epoch` and the mode is not `pretraining`, a teacher
batch is pulled (cycling the iterator, lines 385-389), `teacher.eval()`
is called and the teacher forward runs under `torch.no_grad()` (lines
465-467); finally `student_optimizer.zero_grad/backward/step` update
only the student's parameter groups (lines 607-609). -/
def trainBatch (cfg : TrainCfg) (epoch bnum : ℕ) (st : NetState) : NetState :=
  let st1 := logF st ⟨false, true, !st.studentTraining, false⟩
  let st2 :=
    if cfg.distillEpoch ≤ epoch ∧ cfg.mode ≠ DMode.pretraining then
      let stA := { st1 with
        teacherPos := if st1.teacherPos < cfg.teacherLen then st1.teacherPos + 1 else 1,
        teacherTraining := false }
      logF stA ⟨true, false, !stA.teacherTraining, true⟩
    else st1
  let g := epoch * cfg.studentLen + bnum
  { st2 with
    studentParams := cfg.stepStudent g st2.studentParams,
    projectParams :=
      if cfg.mode ≠ DMode.pretraining then cfg.stepProject g st2.projectParams
      else st2.projectParams }

/-- One epoch (lines 368-641): `student.train()` and `teacher.train()` are
called first (lines 373-374), then the student loader drives the batch
loop. -/
def trainEpoch (cfg : TrainCfg) (epoch : ℕ) (st : NetState) : NetState :=
  (List.range cfg.studentLen).foldl (fun s b => trainBatch cfg epoch b s)
    { st with studentTraining := true, teacherTraining := true }

/-- Model of `_instantiate_kd` (lines 332-358): in `image_level` mode one
student and one teacher forward run under `torch.no_grad()` to size the
projection; no parameters are touched in any mode. -/
def instantiateKD (cfg : TrainCfg) (st : NetState) : NetState :=
  match cfg.mode with
  | DMode.imageLevel =>
    let st1 := logF st ⟨false, false, !st.studentTraining, false⟩
    logF st1 ⟨true, false, !st1.teacherTraining, false⟩
  | _ => st

/-- A full `train()` call: `_instantiate_kd` followed by the epoch loop. -/
def trainRun (cfg : TrainCfg) (st : NetState) : NetState :=
  (List.range cfg.epochs).foldl (fun s e => trainEpoch cfg e s) (instantiateKD cfg st)

/-- Teacher-isolation property of one forward event: if it is a teacher
forward belonging to a distillation step, gradients were disabled and
the teacher was in eval mode. -/
def teacherSafe (e : ForwardEvent) : Prop :=
  e.teacherSide = true → e.inDistill = true →
    e.gradEnabled = false ∧ e.evalMode = true

/-- Concrete one-epoch, one-batch distilling configuration used as the C5
witness. -/
def trainCfgW : TrainCfg :=
  ⟨1, 0, DMode.objectLevel, 1, 1, fun _ x => x + 1, fun _ x => x + 1⟩

/-- Concrete initial state used as the C5 witness (teacher parameters
value `5`). -/
def trainStW : NetState := ⟨0, 5, 0, false, false, 0, []⟩

/-! ### DistillationLoss (`Engine.distill_loss`, lines 321-329)

The loss acts on real matrices (`N` rows, `d` columns, entries
`m i j`); softmax and log-softmax are taken along dimension 1 (the
column index `j`), and `KLDivLoss(reduction='batchmean')` sums the
pointwise `target * (log target - input)` (zero where the target is not
positive, as PyTorch's `kl_div` computes) and divides by the first
dimension `N`. -/

/-- Entry `j` of `softmax(z, dim=1)` applied to one row `z` of width `d`. -/
noncomputable def softmaxEntry (d : ℕ) (z : ℕ → ℝ) (j : ℕ) : ℝ :=
  Real.exp (z j) / ∑ k ∈ Finset.range d, Real.exp (z k)

/-- Entry `j` of `log_softmax(z, dim=1)` applied to one row `z` of width
`d`. -/
noncomputable def logSoftmaxEntry (d : ℕ) (z : ℕ → ℝ) (j : ℕ) : ℝ :=
  z j - Real.log (∑ k ∈ Finset.range d, Real.exp (z k))

/-- `KLDivLoss(reduction='batchmean')(input, target)` on `N × d`
matrices: pointwise `target * (log target - input)` where the target is
positive (zero otherwise), summed and divided by `N`. -/
noncomputable def klDivBatchmean (N d : ℕ) (input target : ℕ → ℕ → ℝ) : ℝ :=
  (∑ i ∈ Finset.range N, ∑ j ∈ Finset.range d,
      if 0 < target i j then target i j * (Real.log (target i j) - input i j) else 0) / N

/-- `Engine.distill_loss` (lines 321-329):
`KLDivLoss(reduction='batchmean')(log_softmax(student/T, dim=1),
softmax(teacher/T, dim=1)) * (alpha * T * T)`. -/
noncomputable def distill_loss (N d : ℕ) (studentOut teacherOut : ℕ → ℕ → ℝ)
    (alpha T : ℝ) : ℝ :=
  klDivBatchmean N d
    (fun i j => logSoftmaxEntry d (fun k => studentOut i k / T) j)
    (fun i j => softmaxEntry d (fun k => teacherOut i k / T) j)
    * (alpha * T * T)

/-- Kullback-Leibler divergence `KL(p ‖ q) = Σ p · log(p/q)` of two `N × d`
matrices of row distributions, as in the spec's formula. -/
noncomputable def klDivergence (N d : ℕ) (p q : ℕ → ℕ → ℝ) : ℝ :=
  ∑ i ∈ Finset.range N, ∑ j ∈ Finset.range d, p i j * Real.log (p i j / q i j)

/-- The spec's formula (§4.4):
`KL( softmax(teacher/T) ‖ softmax(student/T) ) · α · T²` with batch-mean
reduction. -/
noncomputable def specDistillLoss (N d : ℕ) (studentOut teacherOut : ℕ → ℕ → ℝ)
    (alpha T : ℝ) : ℝ :=
  alpha * T ^ 2 *
    (klDivergence N d
      (fun i j => softmaxEntry d (fun k => teacherOut i k / T) j)
      (fun i j => softmaxEntry d (fun k => studentOut i k / T) j) / N)

/-- The object-level call site (line 593): the same `distill_loss` applied
to the projected student and teacher `C × 9` anchor matrices. -/
noncomputable def objectLevelDistillCall (C : ℕ) (studentSel teacherSel : ℕ → ℕ → ℝ)
    (alpha T : ℝ) : ℝ :=
  distill_loss C 9 studentSel teacherSel alpha T

/-- The image-level call site (line 604): the same `distill_loss` applied
to the flattened, batch-pooled feature matrices. -/
noncomputable def imageLevelDistillCall (C dflat : ℕ)
    (studentPooled teacherPooled : ℕ → ℕ → ℝ) (alpha T : ℝ) : ℝ :=
  distill_loss C dflat studentPooled teacherPooled alpha T

/-! ### Helper lemmas -/

lemma softmaxEntry_pos (d : ℕ) (hd : 0 < d) (z : ℕ → ℝ) (j : ℕ) :
    0 < softmaxEntry d z j :=
  div_pos (Real.exp_pos _)
    (Finset.sum_pos (fun _ _ => Real.exp_pos _) (Finset.nonempty_range_iff.mpr hd.ne'))

lemma log_softmaxEntry (d : ℕ) (hd : 0 < d) (z : ℕ → ℝ) (j : ℕ) :
    Real.log (softmaxEntry d z j) = logSoftmaxEntry d z j := by
  have hs : 0 < ∑ k ∈ Finset.range d, Real.exp (z k) :=
    Finset.sum_pos (fun _ _ => Real.exp_pos _) (Finset.nonempty_range_iff.mpr hd.ne')
  rw [softmaxEntry, logSoftmaxEntry, Real.log_div (Real.exp_ne_zero _) (ne_of_gt hs),
    Real.log_exp]

lemma trainBatch_inv (cfg : TrainCfg) (epoch bnum : ℕ) (st : NetState) :
    (trainBatch cfg epoch bnum st).teacherParams = st.teacherParams ∧
    ∀ e ∈ (trainBatch cfg epoch bnum st).log, e ∈ st.log ∨ teacherSafe e := by
  constructor
  · simp only [trainBatch, logF]
    split <;> rfl
  · intro e he
    simp only [trainBatch, logF] at he
    split at he <;> simp only [List.mem_append, List.mem_singleton] at he
    · rcases he with (he | he) | he
      · exact Or.inl he
      · subst he; exact Or.inr (fun h1 _ => by simp at h1)
      · subst he; exact Or.inr (fun _ _ => ⟨rfl, rfl⟩)
    · rcases he with he | he
      · exact Or.inl he
      · subst he; exact Or.inr (fun h1 _ => by simp at h1)

lemma foldl_inv {α : Type} (f : NetState → α → NetState)
    (hf : ∀ st a, (f st a).teacherParams = st.teacherParams ∧
      ∀ e ∈ (f st a).log, e ∈ st.log ∨ teacherSafe e) :
    ∀ (l : List α) (st : NetState),
      ((l.foldl f st).teacherParams = st.teacherParams ∧
        ∀ e ∈ (l.foldl f st).log, e ∈ st.log ∨ teacherSafe e) := by
  intro l
  induction l with
  | nil => exact fun st => ⟨rfl, fun e he => Or.inl he⟩
  | cons a l ih =>
    intro st
    obtain ⟨hp, hl⟩ := ih (f st a)
    obtain ⟨hp0, hl0⟩ := hf st a
    refine ⟨by rw [List.foldl_cons, hp, hp0], ?_⟩
    intro e he
    rcases hl e (by simpa using he) with h | h
    · exact hl0 e h
    · exact Or.inr h

lemma trainEpoch_inv (cfg : TrainCfg) (epoch : ℕ) (st : NetState) :
    (trainEpoch cfg epoch st).teacherParams = st.teacherParams ∧
    ∀ e ∈ (trainEpoch cfg epoch st).log, e ∈ st.log ∨ teacherSafe e := by
  have h := foldl_inv (fun s b => trainBatch cfg epoch b s)
    (fun s b => trainBatch_inv cfg epoch b s) (List.range cfg.studentLen)
    { st with studentTraining := true, teacherTraining := true }
  exact ⟨h.1, fun e he => h.2 e he⟩

lemma instantiateKD_inv (cfg : TrainCfg) (st : NetState) :
    (instantiateKD cfg st).teacherParams = st.teacherParams ∧
    ∀ e ∈ (instantiateKD cfg st).log, e ∈ st.log ∨ teacherSafe e := by
  cases hm : cfg.mode with
  | imageLevel =>
    constructor
    · simp [instantiateKD, hm, logF]
    · intro e he
      simp only [instantiateKD, hm, logF, List.mem_append, List.mem_singleton] at he
      rcases he with (he | he) | he
      · exact Or.inl he
      · subst he; exact Or.inr (fun h1 _ => by simp at h1)
      · subst he; exact Or.inr (fun _ h2 => by simp at h2)
  | objectLevel =>
    constructor
    · simp [instantiateKD, hm]
    · intro e he
      simp only [instantiateKD, hm] at he
      exact Or.inl he
  | pretraining =>
    constructor
    · simp [instantiateKD, hm]
    · intro e he
      simp only [instantiateKD, hm] at he
      exact Or.inl he

lemma roundHalfEven_intCast (n : ℤ) : roundHalfEven (n : ℚ) = n := by
  simp [roundHalfEven, Int.floor_intCast]

lemma filterMap_perSampleAgg (batch : List Sample) (t : Tag) (c : ℕ) :
    (batch.filterMap fun s => perSampleAgg s t c)
      = ((batch.filter fun s => decide (0 < s.boxes.length)).map
          fun s => sampleTagMean s t c) := by
  induction batch with
  | nil => rfl
  | cons s rest ih =>
    by_cases hb : s.boxes = []
    · have hfa : perSampleAgg s t c = none := by simp [perSampleAgg, hb]
      have hp : (decide (0 < s.boxes.length)) = false := by simp [hb]
      simp [List.filterMap_cons, List.filter_cons, hfa, hp, ih]
    · have hfa : perSampleAgg s t c = some (sampleTagMean s t c) := by
        simp [perSampleAgg, sampleTagMean, hb]
      have hp : (decide (0 < s.boxes.length)) = true := by
        simp [List.length_pos.mpr hb]
      simp [List.filterMap_cons, List.filter_cons, hfa, hp, ih]

lemma foldlSelect (p : String → Bool) (metrics : List (String × ℚ)) (current : ℚ) :
    metrics.foldl (fun cur kv => if p kv.1 then kv.2 else cur) current
      = ((metrics.filter fun kv => p kv.1).map Prod.snd).getLastD current := by
  induction metrics generalizing current with
  | nil => rfl
  | cons kv rest ih =>
    by_cases h : p kv.1
    · simp only [List.foldl_cons, List.filter_cons, h, if_true, List.map_cons,
        List.getLastD_cons]
      exact ih kv.2
    · have hf : p kv.1 = false := by simpa using h
      simp only [List.foldl_cons, List.filter_cons, hf, Bool.false_eq_true, if_false]
      exact ih current

lemma checkpointRun_length (ms : List ℚ) (best : ℚ) :
    (checkpointRun ms best).length = ms.length := by
  induction ms generalizing best with
  | nil => rfl
  | cons m ms ih => simp [checkpointRun, ih]

lemma checkpointRun_last (ms : List ℚ) (best : ℚ) :
    ∀ w ∈ checkpointRun ms best, w.1 = true := by
  induction ms generalizing best with
  | nil => intro w hw; simp [checkpointRun] at hw
  | cons m ms ih =>
    intro w hw
    simp only [checkpointRun, List.mem_cons] at hw
    rcases hw with h | h
    · rw [h]
    · exact ih _ w h

lemma checkpointRun_getElem (ms : List ℚ) (best : ℚ) :
    ∀ i, i < ms.length →
      (checkpointRun ms best)[i]? =
        some (true, decide ((ms.take i).foldl max best ≤ ms.getD i 0)) := by
  induction ms generalizing best with
  | nil => intro i hi; exact absurd hi (by simp)
  | cons m ms ih =>
    intro i hi
    cases i with
    | zero => simp [checkpointRun]
    | succ j =>
      have hj : j < ms.length := by
        simpa using Nat.lt_of_succ_lt_succ (by simpa using hi)
      have h2 := ih (if best ≤ m then m else best) j hj
      rw [checkpointRun, List.getElem?_cons_succ, h2, List.getD_cons_succ]
      have harg : ((m :: ms).take (j + 1)).foldl max best
          = (ms.take j).foldl max (if best ≤ m then m else best) := by
        simp [max_def]
      rw [harg]

/-! ### Theorems -/

/-- **C1**: per anchor tag and channel, the batch aggregate of the
object-level aligner equals the spec's two-stage mean (per-sample mean
over boxes, then mean over samples with a non-empty per-sample
aggregate); samples with zero boxes are excluded, not zero-filled, so a
batch keeping at least one boxed sample — in particular one where exactly
one sample has zero boxes — produces a defined (finite, non-NaN) value
that only depends on the boxed samples; and the two-stage order is not
equivalent to a single flattened mean over all boxes when box counts
differ across samples. -/
theorem C1_two_stage_aggregation (batch : List Sample) (t : Tag) (c : ℕ)
    (h : ∃ s ∈ batch, 0 < s.boxes.length) :
    batchTagMean batch t c = some (twoStageMean batch t c) ∧
    batchTagMean batch t c
      = batchTagMean (batch.filter fun s => decide (0 < s.boxes.length)) t c ∧
    ∃ b2 t2 c2, (∃ s1 ∈ b2, ∃ s2 ∈ b2, s1.boxes.length ≠ s2.boxes.length) ∧
      twoStageMean b2 t2 c2 ≠ flattenedMean b2 t2 c2 := by
  refine ⟨?_, ?_, ?_⟩
  · obtain ⟨s, hs, hpos⟩ := h
    have hmem : s ∈ batch.filter fun s => decide (0 < s.boxes.length) := by
      simp [List.mem_filter, hs, hpos]
    have hne : (batch.filter fun s => decide (0 < s.boxes.length)).length ≠ 0 := by
      have := List.length_pos.mpr (List.ne_nil_of_mem hmem)
      omega
    rw [twoStageMean, filterMap_perSampleAgg]
    simp [batchTagMean, hne]
  · rw [batchTagMean, batchTagMean, List.filter_filter]
    simp
  · refine ⟨[⟨fun _ _ _ => 0, [⟨0, 0, 0, 0⟩]⟩,
             ⟨fun _ _ _ => 6, [⟨0, 0, 0, 0⟩, ⟨0, 0, 0, 0⟩]⟩], Tag.center, 0,
      ⟨⟨fun _ _ _ => 0, [⟨0, 0, 0, 0⟩]⟩, by simp,
       ⟨fun _ _ _ => 6, [⟨0, 0, 0, 0⟩, ⟨0, 0, 0, 0⟩]⟩, by simp, by simp⟩, ?_⟩
    simp only [twoStageMean, flattenedMean, perSampleAgg, anchorValue,
      List.filterMap_cons, List.map_cons, List.map_nil, List.flatten,
      List.cons_ne_nil, if_false, reduceIte]
    norm_num

/-- Witness for C1: a two-sample batch whose second sample has zero boxes;
the aggregate is defined and excludes it. -/
theorem C1_two_stage_aggregation_witness :
    (∃ s ∈ [(⟨fun _ _ _ => 1, [⟨0, 0, 1, 1⟩]⟩ : Sample), ⟨fun _ _ _ => 5, []⟩],
        0 < s.boxes.length) ∧
    (batchTagMean [⟨fun _ _ _ => 1, [⟨0, 0, 1, 1⟩]⟩, ⟨fun _ _ _ => 5, []⟩] Tag.center 0
        = some (twoStageMean [⟨fun _ _ _ => 1, [⟨0, 0, 1, 1⟩]⟩, ⟨fun _ _ _ => 5, []⟩]
            Tag.center 0) ∧
      batchTagMean [⟨fun _ _ _ => 1, [⟨0, 0, 1, 1⟩]⟩, ⟨fun _ _ _ => 5, []⟩] Tag.center 0
        = batchTagMean (([⟨fun _ _ _ => 1, [⟨0, 0, 1, 1⟩]⟩, ⟨fun _ _ _ => 5, []⟩] :
              List Sample).filter fun s => decide (0 < s.boxes.length)) Tag.center 0 ∧
      ∃ b2 t2 c2, (∃ s1 ∈ b2, ∃ s2 ∈ b2, s1.boxes.length ≠ s2.boxes.length) ∧
        twoStageMean b2 t2 c2 ≠ flattenedMean b2 t2 c2) :=
  ⟨⟨⟨fun _ _ _ => 1, [⟨0, 0, 1, 1⟩]⟩, by simp, by simp⟩,
   C1_two_stage_aggregation _ Tag.center 0
     ⟨⟨fun _ _ _ => 1, [⟨0, 0, 1, 1⟩]⟩, by simp, by simp⟩⟩

/-- **C2 counterexample**: for a 2×2 feature map (`H = W = 2`) and a 2×2
image, the box `(0, 0, 1, 1)` spans the full feature map after scaling,
yet the center anchor is read at
`((ymin+ymax)//2, (xmin+xmax)//2) = (0, 0)` and not at
`(H//2, W//2) = (1, 1)` as the claim states: on the map `F c y x = 2y + x`
the sampled center value is `0` while the vector at `(1, 1)` is `3`. -/
theorem C2_center_position_counterexample :
    anchorValue cexMap Tag.center (scaleBox (featureRatio 2 2) ⟨0, 0, 1, 1⟩) 0
      ≠ cexMap 0 ((2 : ℤ) / 2) ((2 : ℤ) / 2) := by
  have hsb : scaleBox (featureRatio 2 2) ⟨0, 0, 1, 1⟩ = ⟨0, 0, 1, 1⟩ := by
    have hr : featureRatio 2 2 = 1 := by norm_num [featureRatio]
    rw [hr]
    simp [scaleBox]
    norm_num [roundHalfEven]
  rw [hsb]
  have ht : Int.tdiv (1 : ℤ) 2 = 0 := by decide
  norm_num [anchorValue, anchorY, anchorX, cexMap, ht]

/-- **C2 (amended)**: each box yields 9 feature vectors at the code's
anchor positions — four corners, four edge midpoints `(corner1+corner2)//2`
along the relevant axis, and the center
`((ymin+ymax)//2, (xmin+xmax)//2)` (integer truncation, which for the
non-negative coordinates produced by scaling equals floor division); a
full-image box scales, via `ratio = (feature_dim-1)/(image_dim-1)` and
round-to-nearest, to the full-span feature box `(0, 0, W-1, H-1)`, whose
four corner anchors are the feature map's exact corner vectors and whose
center anchor is the vector at `((H-1)//2, (W-1)//2)` — which equals
`(H//2, W//2)` only for odd `H`, `W`. -/
theorem C2_anchor_sampling (F : ℕ → ℤ → ℤ → ℚ) (c : ℕ) (b : FBox)
    (hx0 : 0 ≤ b.xmin) (hy0 : 0 ≤ b.ymin) (hx1 : 0 ≤ b.xmax) (hy1 : 0 ≤ b.ymax)
    (fW fH imgW imgH : ℕ) (himg : 2 ≤ imgW) (hfW : 1 ≤ fW) (hfH : 1 ≤ fH)
    (haspect : ((imgH : ℚ) - 1) * ((fW : ℚ) - 1) = ((fH : ℚ) - 1) * ((imgW : ℚ) - 1)) :
    (scaleBox (featureRatio fW imgW) ⟨0, 0, (imgW : ℚ) - 1, (imgH : ℚ) - 1⟩
        = ⟨0, 0, (fW : ℤ) - 1, (fH : ℤ) - 1⟩) ∧
    (anchorValue F .botleft b c = F c b.ymin b.xmin) ∧
    (anchorValue F .botright b c = F c b.ymin b.xmax) ∧
    (anchorValue F .topleft b c = F c b.ymax b.xmin) ∧
    (anchorValue F .topright b c = F c b.ymax b.xmax) ∧
    (anchorValue F .center b c
        = F c ((b.ymin + b.ymax) / 2) ((b.xmin + b.xmax) / 2)) ∧
    (anchorValue F .left b c = F c ((b.ymin + b.ymax) / 2) b.xmin) ∧
    (anchorValue F .right b c = F c ((b.ymin + b.ymax) / 2) b.xmax) ∧
    (anchorValue F .top b c = F c b.ymin ((b.xmin + b.xmax) / 2)) ∧
    (anchorValue F .bot b c = F c b.ymax ((b.xmin + b.xmax) / 2)) ∧
    (anchorValue F .botleft ⟨0, 0, (fW : ℤ) - 1, (fH : ℤ) - 1⟩ c = F c 0 0) ∧
    (anchorValue F .botright ⟨0, 0, (fW : ℤ) - 1, (fH : ℤ) - 1⟩ c
        = F c 0 ((fW : ℤ) - 1)) ∧
    (anchorValue F .topleft ⟨0, 0, (fW : ℤ) - 1, (fH : ℤ) - 1⟩ c
        = F c ((fH : ℤ) - 1) 0) ∧
    (anchorValue F .topright ⟨0, 0, (fW : ℤ) - 1, (fH : ℤ) - 1⟩ c
        = F c ((fH : ℤ) - 1) ((fW : ℤ) - 1)) ∧
    (anchorValue F .center ⟨0, 0, (fW : ℤ) - 1, (fH : ℤ) - 1⟩ c
        = F c (((fH : ℤ) - 1) / 2) (((fW : ℤ) - 1) / 2)) := by
  have hmy : Int.tdiv (b.ymin + b.ymax) 2 = (b.ymin + b.ymax) / 2 :=
    Int.tdiv_eq_ediv (by omega) (by norm_num)
  have hmx : Int.tdiv (b.xmin + b.xmax) 2 = (b.xmin + b.xmax) / 2 :=
    Int.tdiv_eq_ediv (by omega) (by norm_num)
  have hfy : Int.tdiv ((fH : ℤ) - 1) 2 = ((fH : ℤ) - 1) / 2 :=
    Int.tdiv_eq_ediv (by omega) (by norm_num)
  have hfx : Int.tdiv ((fW : ℤ) - 1) 2 = ((fW : ℤ) - 1) / 2 :=
    Int.tdiv_eq_ediv (by omega) (by norm_num)
  have hscale : scaleBox (featureRatio fW imgW) ⟨0, 0, (imgW : ℚ) - 1, (imgH : ℚ) - 1⟩
      = ⟨0, 0, (fW : ℤ) - 1, (fH : ℤ) - 1⟩ := by
    have hw : ((imgW : ℚ) - 1) ≠ 0 := by
      have h2 : (2 : ℚ) ≤ (imgW : ℚ) := by exact_mod_cast himg
      intro hc; nlinarith
    have hx : ((imgW : ℚ) - 1) * featureRatio fW imgW = (fW : ℚ) - 1 := by
      field_simp [featureRatio]
    have hy : ((imgH : ℚ) - 1) * featureRatio fW imgW = (fH : ℚ) - 1 := by
      rw [featureRatio, mul_div_assoc', haspect]
      field_simp
    have h0 : (0 : ℚ) * featureRatio fW imgW = ((0 : ℤ) : ℚ) := by norm_num
    have hxc : ((fW : ℚ) - 1) = (((fW : ℤ) - 1 : ℤ) : ℚ) := by push_cast; ring
    have hyc : ((fH : ℚ) - 1) = (((fH : ℤ) - 1 : ℤ) : ℚ) := by push_cast; ring
    simp only [scaleBox, h0, hx, hy, hxc, hyc, roundHalfEven_intCast]
  exact ⟨hscale, rfl, rfl, rfl, rfl,
    by simp [anchorValue, anchorY, anchorX, hmy, hmx],
    by simp [anchorValue, anchorY, anchorX, hmy],
    by simp [anchorValue, anchorY, anchorX, hmy],
    by simp [anchorValue, anchorY, anchorX, hmx],
    by simp [anchorValue, anchorY, anchorX, hmx],
    rfl, rfl, rfl, rfl,
    by simp [anchorValue, anchorY, anchorX, hfy, hfx]⟩

/-- Witness for the amended C2: a 3×3 feature map tapped from a 5×5 image
(`ratio = 1/2`); the full-image box `(0, 0, 4, 4)` scales to the
full-span feature box `(0, 0, 2, 2)`. -/
theorem C2_anchor_sampling_witness :
    ((0 : ℤ) ≤ 0 ∧ (0 : ℤ) ≤ 0 ∧ (0 : ℤ) ≤ 2 ∧ (0 : ℤ) ≤ 3 ∧
      2 ≤ 5 ∧ 1 ≤ 3 ∧
      (((5 : ℕ) : ℚ) - 1) * (((3 : ℕ) : ℚ) - 1)
        = (((3 : ℕ) : ℚ) - 1) * (((5 : ℕ) : ℚ) - 1)) ∧
    scaleBox (featureRatio 3 5) ⟨0, 0, ((5 : ℕ) : ℚ) - 1, ((5 : ℕ) : ℚ) - 1⟩
      = ⟨0, 0, ((3 : ℕ) : ℤ) - 1, ((3 : ℕ) : ℤ) - 1⟩ :=
  ⟨⟨by decide, by decide, by decide, by decide, by decide, by decide, by norm_num⟩,
   (C2_anchor_sampling cexMap 0 ⟨0, 0, 2, 3⟩ (by decide) (by decide) (by decide)
      (by decide) 3 3 5 5 (by decide) (by decide) (by decide) (by norm_num)).1⟩

/-- **C3**: when no sample in the batch has a box, the per-tag batch
aggregation fails explicitly (`sum(lst)/len(lst)` raises
`ZeroDivisionError` because `len(lst) = 0`, modelled as `none`) instead
of silently producing a NaN or zero aggregate. -/
theorem C3_all_empty_batch_fails (batch : List Sample) (t : Tag) (c : ℕ)
    (h : ∀ s ∈ batch, s.boxes.length = 0) :
    batchTagMean batch t c = none := by
  have hnil : (batch.filter fun s => decide (0 < s.boxes.length)) = [] := by
    apply List.filter_eq_nil_iff.mpr
    intro s hs
    simp [h s hs]
  simp [batchTagMean, hnil]

/-- Witness for C3: a singleton batch whose only sample has no boxes. -/
theorem C3_all_empty_batch_fails_witness :
    (∀ s ∈ [(⟨fun _ _ _ => 3, []⟩ : Sample)], s.boxes.length = 0) ∧
    batchTagMean [⟨fun _ _ _ => 3, []⟩] Tag.topleft 0 = none :=
  ⟨by simp, C3_all_empty_batch_fails _ Tag.topleft 0 (by simp)⟩

/-- **C4**: for a primary (student) stream of length `L` and a secondary
(teacher) stream of length `M > 0`, one distilling epoch's pairing loop
yields exactly `L` paired batches; the secondary indices follow the
period-`M` cycle `(pos + i) % M` from the iterator's starting position,
and mid-epoch exhaustion never surfaces as a failure (the result is
`some`, the `StopIteration` being recovered by re-creating the
iterator). -/
theorem C4_cycler_yields_L_pairs (L M pos : ℕ) (hM : 0 < M) (hpos : pos ≤ M) :
    ∃ l p', epochPairs M L pos = some (l, p') ∧ l.length = L ∧ p' ≤ M ∧
      ∀ i, i < L → l[i]? = some ((pos + i) % M) := by
  induction L generalizing pos with
  | zero => exact ⟨[], pos, rfl, rfl, hpos, fun i hi => absurd hi (Nat.not_lt_zero i)⟩
  | succ n ih =>
    by_cases h : pos < M
    · obtain ⟨l, p', hrun, hlen, hp', hidx⟩ := ih (pos + 1) h
      refine ⟨pos :: l, p', ?_, by simp [hlen], hp', ?_⟩
      · simp [epochPairs, cyclerNext, h, hrun]
      · intro i hi
        cases i with
        | zero => simp [Nat.mod_eq_of_lt h]
        | succ j =>
          have hj : j < n := Nat.lt_of_succ_lt_succ hi
          have h2 := hidx j hj
          rw [List.getElem?_cons_succ, h2]
          have harg : pos + 1 + j = pos + (j + 1) := by omega
          rw [harg]
    · have hpm : pos = M := le_antisymm hpos (Nat.le_of_not_lt h)
      obtain ⟨l, p', hrun, hlen, hp', hidx⟩ := ih 1 hM
      refine ⟨0 :: l, p', ?_, by simp [hlen], hp', ?_⟩
      · simp [epochPairs, cyclerNext, h, hM, hrun]
      · intro i hi
        cases i with
        | zero => simp [hpm]
        | succ j =>
          have hj : j < n := Nat.lt_of_succ_lt_succ hi
          have h2 := hidx j hj
          rw [List.getElem?_cons_succ, h2, hpm]
          have harg : (1 + j) % M = (M + (j + 1)) % M := by
            rw [Nat.add_comm M (j + 1), Nat.add_mod_right, Nat.add_comm]
          rw [harg]

/-- Witness for C4 at `L = 5`, `M = 2`, starting from an exhausted
iterator position `pos = 2`. -/
theorem C4_cycler_yields_L_pairs_witness :
    0 < 2 ∧ 2 ≤ 2 ∧
    (∃ l p', epochPairs 2 5 2 = some (l, p') ∧ l.length = 5 ∧ p' ≤ 2 ∧
      ∀ i, i < 5 → l[i]? = some ((2 + i) % 2)) :=
  ⟨by decide, by decide, C4_cycler_yields_L_pairs 5 2 2 (by decide) (by decide)⟩

/-- **C5**: during `train()`, every teacher forward call belonging to a
distillation step runs with gradients disabled and the teacher in eval
mode, the backward pass and optimizer step touch only the student-side
parameter groups, and the teacher's parameters after `train()` completes
are identical to their values before it started — for any number of
epochs, any distill threshold, any mode, and any optimizer update
functions. -/
theorem C5_teacher_gradient_isolation (cfg : TrainCfg) (st0 : NetState)
    (hlog : st0.log = []) :
    (trainRun cfg st0).teacherParams = st0.teacherParams ∧
    ∀ e ∈ (trainRun cfg st0).log, e.teacherSide = true → e.inDistill = true →
      e.gradEnabled = false ∧ e.evalMode = true := by
  have hkd := instantiateKD_inv cfg st0
  have h := foldl_inv (fun s e => trainEpoch cfg e s)
    (fun s e => trainEpoch_inv cfg e s) (List.range cfg.epochs) (instantiateKD cfg st0)
  refine ⟨by rw [trainRun, h.1, hkd.1], ?_⟩
  intro e he h1 h2
  rcases h.2 e he with hin | hs
  · rcases hkd.2 e hin with hin0 | hs
    · rw [hlog] at hin0; simp at hin0
    · exact hs h1 h2
  · exact hs h1 h2

/-- Witness for C5: a one-epoch, one-batch distilling run; the teacher
forward event `(teacher, no-grad, eval, distill)` is in the log and the
teacher parameters still equal `5` afterwards. -/
theorem C5_teacher_gradient_isolation_witness :
    trainStW.log = [] ∧
    ((⟨true, false, true, true⟩ : ForwardEvent) ∈ (trainRun trainCfgW trainStW).log ∧
      (trainRun trainCfgW trainStW).teacherParams = trainStW.teacherParams ∧
      ((false : Bool) = false ∧ (true : Bool) = true)) :=
  ⟨rfl,
   by decide,
   (C5_teacher_gradient_isolation trainCfgW trainStW rfl).1,
   (C5_teacher_gradient_isolation trainCfgW trainStW rfl).2
     ⟨true, false, true, true⟩ (by decide) rfl rfl⟩

/-- **C6 counterexample**: for the selection-metric sequence
`[0.2, 0.5, 0.3, 0.5]` the code writes the "best" checkpoint at epochs
1, 2 and 4 — not "at epochs 2 and 4 only" as the claim states — because
`best_metric` is initialised to `0` and epoch 1's `0.2 ≥ 0` triggers a
save. -/
theorem C6_best_sequence_counterexample :
    (checkpointWrites [2/10, 5/10, 3/10, 5/10]).map Prod.snd
        = [true, true, false, true] ∧
    (checkpointWrites [2/10, 5/10, 3/10, 5/10]).map Prod.snd
        ≠ [false, true, false, true] := by
  have heq : (checkpointWrites [2/10, 5/10, 3/10, 5/10]).map Prod.snd
      = [true, true, false, true] := by
    norm_num [checkpointWrites, checkpointRun]
  exact ⟨heq, by rw [heq]; decide⟩

/-- **C6 (amended)**: a "last" checkpoint is written unconditionally every
epoch, and a "best" checkpoint exactly when the epoch's selection metric
is `≥` the running best (initialised to `0`, ties re-save, favouring the
most recent epoch); for the sequence `[0.2, 0.5, 0.3, 0.5]` "best" is
written at epochs 1, 2 and 4, never at epoch 3. -/
theorem C6_checkpoint_policy (ms : List ℚ) :
    (checkpointWrites ms).length = ms.length ∧
    (∀ w ∈ checkpointWrites ms, w.1 = true) ∧
    (∀ i, i < ms.length →
      (checkpointWrites ms)[i]? =
        some (true, decide ((ms.take i).foldl max 0 ≤ ms.getD i 0))) ∧
    (checkpointWrites [2/10, 5/10, 3/10, 5/10]).map Prod.snd
        = [true, true, false, true] :=
  ⟨checkpointRun_length ms 0, checkpointRun_last ms 0,
   fun i hi => checkpointRun_getElem ms 0 i hi,
   by norm_num [checkpointWrites, checkpointRun]⟩

/-- Witness for the amended C6 at the sequence `[0.2, 0.5, 0.3, 0.5]`
and epoch index `0`: epoch 1 writes both "last" and "best". -/
theorem C6_checkpoint_policy_witness :
    (0 < ([2/10, 5/10, 3/10, 5/10] : List ℚ).length) ∧
    (checkpointWrites [2/10, 5/10, 3/10, 5/10])[0]? =
      some (true, decide ((([2/10, 5/10, 3/10, 5/10] : List ℚ).take 0).foldl max 0
          ≤ ([2/10, 5/10, 3/10, 5/10] : List ℚ).getD 0 0)) :=
  ⟨by decide, (C6_checkpoint_policy [2/10, 5/10, 3/10, 5/10]).2.2.1 0 (by decide)⟩

/-- **C7 counterexample**: no configured metric name makes an exact-key
lookup agree with the source's selection — the source assigns from every
key containing the hardcoded substring `"mAP"`, so the two metric records
`[("xmAPx", 7)]` and `[("ymAPy", 9)]` both drive the selection although
no single exact name matches both keys. -/
theorem C7_configured_name_counterexample :
    ¬ ∃ name : String, ∀ (metrics : List (String × ℚ)) (current : ℚ),
        selectStudentMetric metrics current
          = selectByConfiguredName name metrics current := by
  rintro ⟨name, hall⟩
  have h1 := hall [("xmAPx", 7)] 0
  have h2 := hall [("ymAPy", 9)] 0
  have e1 : selectStudentMetric [("xmAPx", 7)] 0 = 7 := by decide
  have e2 : selectStudentMetric [("ymAPy", 9)] 0 = 9 := by decide
  rw [e1] at h1
  rw [e2] at h2
  by_cases hn : ("xmAPx" : String) = name
  · have hn2 : ¬ (("ymAPy" : String) = name) := by
      rw [← hn]; decide
    simp [selectByConfiguredName, hn2] at h2
  · simp [selectByConfiguredName, hn] at h1

/-- **C7 (amended)**: the best-checkpoint selection scalar for each
network role is obtained by substring matching on the epoch's metric
keys against a hardcoded fragment — `"mAP"` for the student in `train`,
`"mean_sensitivity"` for the teacher in `warmup` — taking the value of
the last matching key and keeping the incoming value when no key
matches; it is not selected by a configured metric name. -/
theorem C7_substring_metric_selection (metrics : List (String × ℚ)) (current : ℚ) :
    selectStudentMetric metrics current
      = ((metrics.filter fun kv => strContains "mAP" kv.1).map
          Prod.snd).getLastD current ∧
    selectTeacherMetric metrics current
      = ((metrics.filter fun kv => strContains "mean_sensitivity" kv.1).map
          Prod.snd).getLastD current :=
  ⟨foldlSelect (fun k => strContains "mAP" k) metrics current,
   foldlSelect (fun k => strContains "mean_sensitivity" k) metrics current⟩

/-- **C8**: `distill_loss(student, teacher, α, T)` is a pure function
equal to `KL( softmax(teacher/T) ‖ softmax(student/T) ) · α · T²` with
batch-mean reduction and softmax along dimension 1, and the identical
function is applied at the object-level and image-level call sites. -/
theorem C8_distill_loss_formula (N d : ℕ) (s t : ℕ → ℕ → ℝ) (alpha T : ℝ) :
    distill_loss N d s t alpha T = specDistillLoss N d s t alpha T ∧
    objectLevelDistillCall N s t alpha T = distill_loss N 9 s t alpha T ∧
    imageLevelDistillCall N d s t alpha T = distill_loss N d s t alpha T := by
  refine ⟨?_, rfl, rfl⟩
  rcases Nat.eq_zero_or_pos d with hd | hd
  · subst hd
    simp [distill_loss, specDistillLoss, klDivBatchmean, klDivergence]
  · have hsum :
        (∑ i ∈ Finset.range N, ∑ j ∈ Finset.range d,
            if 0 < softmaxEntry d (fun k => t i k / T) j then
              softmaxEntry d (fun k => t i k / T) j *
                (Real.log (softmaxEntry d (fun k => t i k / T) j)
                  - logSoftmaxEntry d (fun k => s i k / T) j)
            else 0)
          = ∑ i ∈ Finset.range N, ∑ j ∈ Finset.range d,
              softmaxEntry d (fun k => t i k / T) j *
                Real.log (softmaxEntry d (fun k => t i k / T) j
                  / softmaxEntry d (fun k => s i k / T) j) := by
      refine Finset.sum_congr rfl fun i _ => Finset.sum_congr rfl fun j _ => ?_
      have hP : 0 < softmaxEntry d (fun k => t i k / T) j := softmaxEntry_pos d hd _ j
      have hQ : 0 < softmaxEntry d (fun k => s i k / T) j := softmaxEntry_pos d hd _ j
      rw [if_pos hP, Real.log_div (ne_of_gt hP) (ne_of_gt hQ), log_softmaxEntry d hd,
        log_softmaxEntry d hd]
    rw [distill_loss, specDistillLoss, klDivBatchmean, klDivergence, hsum]
    ring

/-- **C9**: for every input `x`, weight `α` and temperature `T`,
`distill_loss(x, x, α, T) = 0` — identical teacher and student
distributions yield zero divergence. -/
theorem C9_distill_loss_self_zero (N d : ℕ) (x : ℕ → ℕ → ℝ) (alpha T : ℝ) :
    distill_loss N d x x alpha T = 0 := by
  have hz : (∑ i ∈ Finset.range N, ∑ j ∈ Finset.range d,
      if 0 < softmaxEntry d (fun k => x i k / T) j then
        softmaxEntry d (fun k => x i k / T) j *
          (Real.log (softmaxEntry d (fun k => x i k / T) j)
            - logSoftmaxEntry d (fun k => x i k / T) j)
      else 0) = 0 := by
    refine Finset.sum_eq_zero fun i _ => Finset.sum_eq_zero fun j hj => ?_
    have hd : 0 < d := lt_of_le_of_lt (Nat.zero_le j) (Finset.mem_range.mp hj)
    by_cases hP : 0 < softmaxEntry d (fun k => x i k / T) j
    · rw [if_pos hP, log_softmaxEntry d hd, sub_self, mul_zero]
    · rw [if_neg hP]
  rw [distill_loss, klDivBatchmean, hz]
  ring

/-- **C10 counterexample**: for a non-square original slice shape `(4, 8)`,
configured size `(2, 2)` and the box `(1, 1, 1, 1)`, `predict` rescales to
`(2, 4, 2, 4)` while `predict_2dto3d` rescales to `(4, 2, 4, 2)`: the two
functions do not apply the same axis convention. -/
theorem C10_axis_convention_counterexample :
    predictRescale 4 8 2 2 ⟨1, 1, 1, 1⟩ ≠ predict2dto3dRescale 4 8 2 2 ⟨1, 1, 1, 1⟩ := by
  intro h
  have h0 := congrArg Box4.c0 h
  norm_num [predictRescale, predict2dto3dRescale] at h0

/-- **C10 (amended)**: within each function, box columns 0 and 2 share one
scale factor and columns 1 and 3 the other, but the two functions read
the factors from transposed positions of the original shape: `predict`
uses `shape[0]/size[0]` on x-columns and `shape[1]/size[1]` on y-columns,
`predict_2dto3d` uses `shape[1]/size[0]` and `shape[0]/size[1]`; the two
functions return identically scaled boxes when `shape[0] = shape[1]`. -/
theorem C10_axis_convention (s0 s1 z0 z1 : ℚ) (b : Box4) :
    (predictRescale s0 s1 z0 z1 b).c0 = b.c0 * (s0 / z0) ∧
    (predictRescale s0 s1 z0 z1 b).c2 = b.c2 * (s0 / z0) ∧
    (predictRescale s0 s1 z0 z1 b).c1 = b.c1 * (s1 / z1) ∧
    (predictRescale s0 s1 z0 z1 b).c3 = b.c3 * (s1 / z1) ∧
    (predict2dto3dRescale s0 s1 z0 z1 b).c0 = b.c0 * (s1 / z0) ∧
    (predict2dto3dRescale s0 s1 z0 z1 b).c2 = b.c2 * (s1 / z0) ∧
    (predict2dto3dRescale s0 s1 z0 z1 b).c1 = b.c1 * (s0 / z1) ∧
    (predict2dto3dRescale s0 s1 z0 z1 b).c3 = b.c3 * (s0 / z1) ∧
    (s0 = s1 → predictRescale s0 s1 z0 z1 b = predict2dto3dRescale s0 s1 z0 z1 b) := by
  refine ⟨rfl, rfl, rfl, rfl, rfl, rfl, rfl, rfl, fun h => ?_⟩
  simp [predictRescale, predict2dto3dRescale, h]

/-- Witness for the amended C10 at a square shape `(3, 3)`. -/
theorem C10_axis_convention_witness :
    (3 : ℚ) = 3 ∧
    predictRescale 3 3 2 2 ⟨1, 2, 3, 4⟩ = predict2dto3dRescale 3 3 2 2 ⟨1, 2, 3, 4⟩ :=
  ⟨rfl, (C10_axis_convention 3 3 2 2 ⟨1, 2, 3, 4⟩).2.2.2.2.2.2.2.2 rfl⟩

end CoMoTo
